import Mathlib

/-!
Verification of the line-segmentation core of the ocr-japanese-doc-by-line
repository (file scr/Frame.py), as a shallow embedding in Lean 4.

Modelling conventions:
* numpy arrays become Lean lists; machine integers are ℤ (pixel coordinates
  are small, no overflow is possible in the modelled code paths);
* the float arithmetic in expand_rects (a ratio of squared heights times an
  integer gap, truncated by astype) is modelled by exact rational
  arithmetic, expressed over ℤ: trunc((a/b)·g) = tdiv_model (a*g) b.  The
  bridge lemmas relate this to the literal rational formula;
* Python exceptions (IndexError, failed assert, TypeError) become Option
  and Bool-valued validators; external cv2 and sklearn calls are opaque;
* the classes Rect and Rects live in Rect.py, which is not part of the
  sources here; their small interface (edges, height, expand_above,
  expand_below, contours, sorted) is modelled from the spec, as marked.
-/

namespace Scr

/-! ## Geometry primitives (interface of Rect.py, modelled from the spec) -/

/-- Modelled from the spec: Rect.py is not among the sources.  A Rectangle
is an axis-aligned box with four integer edges (top, bottom, left, right)
derived from the bounding box of a contour. -/
structure Rect where
  top : ℤ
  bottom : ℤ
  left : ℤ
  right : ℤ
deriving DecidableEq

/-- Modelled from the spec: the current height of a rectangle (used by
expand_rects as the per-contour height). -/
def Rect.height (r : Rect) : ℤ := r.bottom - r.top

/-- Modelled from the spec: Rect.expand_above shifts the top edge upward
(decreasing y) by the given pixel delta. -/
def Rect.expand_above (r : Rect) (d : ℤ) : Rect := { r with top := r.top - d }

/-- Modelled from the spec: Rect.expand_below shifts the bottom edge
downward (increasing y) by the given pixel delta. -/
def Rect.expand_below (r : Rect) (d : ℤ) : Rect := { r with bottom := r.bottom + d }

/-- Modelled from the spec: of a stored contour, expand_rects only reads
the y coordinate of its first point (contour[0], the top-left corner) and
of its second point (contour[1], the bottom-left corner).  The code takes
the point difference, flattens and keeps the y components ([1::2]). -/
structure Contour where
  p0y : ℤ
  p1y : ℤ
deriving DecidableEq

/-- One element of the ordered rectangle collection: a rectangle paired
with its originating contour (Rects stores them in the same index order). -/
structure Entry where
  rect : Rect
  contour : Contour
deriving DecidableEq

def Entry.expand_above (e : Entry) (d : ℤ) : Entry :=
  { e with rect := e.rect.expand_above d }

def Entry.expand_below (e : Entry) (d : ℤ) : Entry :=
  { e with rect := e.rect.expand_below d }

/-! ## Input image validation (Frame.__check_rgb_img) -/

/-- Element dtypes an input array can carry.  Modelled from the spec:
Type_Alias.py is not among the sources; Pixel_dtype is the unsigned 8-bit
sample type, so np.issubdtype(img.dtype, Pixel_dtype) holds exactly for
uint8 arrays. -/
inductive Dtype where
  | uint8
  | int32
  | float64
deriving DecidableEq

/-- An input image, reduced to the data __check_rgb_img inspects: its
dtype and its shape (list of dimension sizes, img.ndim = shape.length). -/
structure Img where
  dtype : Dtype
  shape : List ℕ
deriving DecidableEq

/-- Frame.__check_rgb_img: asserts that the argument is an ndarray (true
by construction here), that its dtype is the 8-bit pixel dtype, that it is
2-D or 3-D, and that a 3-D image has exactly 3 channels (S[-1] == 3).
Returns false where the Python code would raise AssertionError. -/
def check_rgb_img (img : Img) : Bool :=
  (img.dtype == Dtype.uint8) &&
  (img.shape.length == 2 || img.shape.length == 3) &&
  (if img.shape.length == 3 then img.shape.getLastD 0 == 3 else true)

/-! ## Odd Gaussian-kernel rounding (Frame.__to_odd and its call sites) -/

/-- Frame.__to_odd: y = ceil(x); return y if y is odd, else y - 1. -/
def to_odd (x : ℚ) : ℤ :=
  if ⌈x⌉ % 2 = 1 then ⌈x⌉ else ⌈x⌉ - 1

/-- The size formula at the __get_effective_zone call site:
to_odd(max(offset_percent * dim // 100, 1)).  Python // on floats is the
floor, modelled by the integer floor ⌊·⌋ cast back to ℚ. -/
def gauss_size_zone (rate : ℚ) (dim : ℤ) : ℤ :=
  to_odd (max ((⌊rate * (dim : ℚ) / 100⌋ : ℤ) : ℚ) 1)

/-- The kernel dimension actually passed to cv2.GaussianBlur in
__get_effective_zone: the code applies __to_odd a second time to the
already odd gauss size. -/
def gauss_kernel_zone (rate : ℚ) (dim : ℤ) : ℤ :=
  to_odd ((gauss_size_zone rate dim : ℤ) : ℚ)

/-- The size formula at the __generate_frame call site:
to_odd(blur_rate * dim // 100) — note: no max with 1 here. -/
def gauss_size_mask (rate : ℚ) (dim : ℤ) : ℤ :=
  to_odd ((⌊rate * (dim : ℚ) / 100⌋ : ℤ) : ℚ)

/-! ## Frame and its construction -/

/-- The reading order by which Rects.sorted orders entries: top edge
ascending, ties broken by left edge ascending.  Modelled from the spec
(Rect.py is not among the sources). -/
def readingOrder (a b : Entry) : Prop :=
  a.rect.top < b.rect.top ∨ (a.rect.top = b.rect.top ∧ a.rect.left ≤ b.rect.left)

instance : DecidableRel readingOrder := fun a b => by
  unfold readingOrder; infer_instance

instance : IsTotal Entry readingOrder where
  total a b := by
    unfold readingOrder
    rcases lt_trichotomy a.rect.top b.rect.top with h | h | h
    · exact Or.inl (Or.inl h)
    · rcases le_total a.rect.left b.rect.left with h2 | h2
      · exact Or.inl (Or.inr ⟨h, h2⟩)
      · exact Or.inr (Or.inr ⟨h.symm, h2⟩)
    · exact Or.inr (Or.inl h)

instance : IsTrans Entry readingOrder where
  trans a b c hab hbc := by
    unfold readingOrder at *
    rcases hab with h1 | ⟨h1, h1l⟩ <;> rcases hbc with h2 | ⟨h2, h2l⟩
    · exact Or.inl (h1.trans h2)
    · exact Or.inl (h2 ▸ h1)
    · exact Or.inl (h1 ▸ h2)
    · exact Or.inr ⟨h1.trans h2, h1l.trans h2l⟩

/-- Frame.__find_rects: wrap the detected contours (an opaque cv2 product,
taken here as the list of raw entries) into a Rects and sort it.
Rects.sorted is modelled from the spec as a sort by reading order. -/
def find_rects (raw : List Entry) : List Entry :=
  List.insertionSort readingOrder raw

/-- The state of a Frame: validated dimensions and the owned, mutable
ordered rectangle collection (rectangles paired with their contours). -/
structure Frame where
  height : ℤ
  width : ℤ
  items : List Entry
deriving DecidableEq

/-- Frame.__init__: assert __check_rgb_img, record height = shape[0] and
width = shape[1], run the detection pipeline (cv2 and sklearn stages are
opaque; their net product is the raw entry list) and initialize the Rects
base with find_rects.  Returns none where Python raises AssertionError. -/
def frame_init (img : Img) (raw : List Entry) : Option Frame :=
  if check_rgb_img img then
    some { height := (img.shape.headD 0 : ℤ),
           width := (img.shape.getD 1 0 : ℤ),
           items := find_rects raw }
  else
    none

/-! ## The rectangle expander (Frame.expand_rects)

The numpy pipeline

  contours_height = [r.height for r in self]
  height_sq       = contours_height**2
  denom           = np.roll(height_sq, -1) + height_sq
  ratio_for_lower = height_sq[:-1] / denom[:-1]
  dist[i]         = y(contours[i+1][0]) - y(contours[i][1])
  plus_for_lower_rect = (ratio_for_lower * dist).astype(int)
  plus_for_upper_rect = dist - plus_for_lower_rect

is modelled with exact arithmetic: the float product
(height_sq[i] / denom[i]) * dist[i] equals the rational
(height_sq[i] * dist[i]) / denom[i], and astype truncates toward zero,
which is tdiv_model below.  All denominators are sums of two squares; a
zero denominator (two zero-height rectangles) gives nan in numpy and is
conventionally 0 here, matching rational division by zero. -/

/-- Truncating (toward zero) division for a nonnegative denominator:
the exact-arithmetic model of float division followed by astype(int). -/
def tdiv_model (x y : ℤ) : ℤ :=
  if 0 ≤ x then x / y else -((-x) / y)

/-- The per-rectangle current heights, contours_height in the source. -/
def contours_height (f : Frame) : List ℤ :=
  f.items.map (fun e => e.rect.height)

/-- height_sq = contours_height**2, elementwise. -/
def height_sq (f : Frame) : List ℤ :=
  (contours_height f).map (fun h => h * h)

/-- np.roll(a, -1): rotate the list one place to the left. -/
def rollLeft (l : List ℤ) : List ℤ :=
  l.drop 1 ++ l.take 1

/-- denom = np.roll(height_sq, -1) + height_sq, elementwise. -/
def denomList (f : Frame) : List ℤ :=
  List.zipWith (fun a b => a + b) (rollLeft (height_sq f)) (height_sq f)

/-- The numerators of ratio_for_lower = height_sq[:-1] / denom[:-1]. -/
def ratio_for_lower_num (f : Frame) : List ℤ :=
  (height_sq f).dropLast

/-- The denominators of ratio_for_lower = height_sq[:-1] / denom[:-1]. -/
def ratio_for_lower_den (f : Frame) : List ℤ :=
  (denomList f).dropLast

/-- dist: the vertical distance between neighboring contours,
y(contours[i+1][0]) - y(contours[i][1]) for i in range(0, Len - 1)
(the flatten()[1::2] step selects exactly the y components). -/
def distList (f : Frame) : List ℤ :=
  List.zipWith (fun a b => b.contour.p0y - a.contour.p1y) f.items (f.items.drop 1)

/-- plus_for_lower_rect = (ratio_for_lower * dist).astype(int), in exact
arithmetic: trunc((num/den) * g) = tdiv_model (num * g) den. -/
def plus_for_lower_rect (f : Frame) : List ℤ :=
  List.zipWith (fun p g => tdiv_model (p.1 * g) p.2)
    (List.zip (ratio_for_lower_num f) (ratio_for_lower_den f)) (distList f)

/-- plus_for_upper_rect = dist - plus_for_lower_rect, elementwise. -/
def plus_for_upper_rect (f : Frame) : List ℤ :=
  List.zipWith (fun g p => g - p) (distList f) (plus_for_lower_rect f)

/-- Python list/array indexing: nonnegative indices from the front,
negative indices from the back; out of range raises (none). -/
def pyGet (l : List ℤ) (i : ℤ) : Option ℤ :=
  if 0 ≤ i then l[i.toNat]?
  else if i.natAbs ≤ l.length then l[l.length - i.natAbs]? else none

/-- In-place update of the element at an index (self[i].expand_...). -/
def modifyIdx (l : List Entry) (i : ℕ) (g : Entry → Entry) : List Entry :=
  match l, i with
  | [], _ => []
  | x :: xs, 0 => g x :: xs
  | x :: xs, j + 1 => x :: modifyIdx xs j g

/-- The first conditional of the loop body: if i < Len - 1, expand rect i
below by plus_for_upper_rect[i] and rect i+1 above by
plus_for_lower_rect[i].  none models an IndexError. -/
def expand_step_pair (pU pL : List ℤ) (n i : ℕ) (items : List Entry) :
    Option (List Entry) :=
  if i < n - 1 then
    (pyGet pU (i : ℤ)).bind fun du =>
    (pyGet pL (i : ℤ)).bind fun dl =>
    some (modifyIdx (modifyIdx items i (fun e => e.expand_below du))
      (i + 1) (fun e => e.expand_above dl))
  else some items

/-- The second conditional: if i == 0, expand rect i above by
plus_for_upper_rect[i] (an IndexError when that array is empty). -/
def expand_step_first (pU : List ℤ) (i : ℕ) (items : List Entry) :
    Option (List Entry) :=
  if i = 0 then
    (pyGet pU (i : ℤ)).bind fun du =>
    some (modifyIdx items i (fun e => e.expand_above du))
  else some items

/-- The third conditional: if i == Len - 1, expand rect i below by
plus_for_lower_rect[i - 1] (for i = 0 a Python index of -1, an
IndexError when that array is empty). -/
def expand_step_last (pL : List ℤ) (n i : ℕ) (items : List Entry) :
    Option (List Entry) :=
  if i = n - 1 then
    (pyGet pL ((i : ℤ) - 1)).bind fun dl =>
    some (modifyIdx items i (fun e => e.expand_below dl))
  else some items

/-- One iteration of the expansion loop, for i in range(0, Len): the
three conditionals of the source body in order. -/
def expand_step (pU pL : List ℤ) (n : ℕ) (items : List Entry) (i : ℕ) :
    Option (List Entry) :=
  (expand_step_pair pU pL n i items).bind fun items1 =>
  (expand_step_first pU i items1).bind fun items2 =>
  expand_step_last pL n i items2

/-- Frame.expand_rects: compute the increment arrays from the current
heights and the stored contours, then run the expansion loop over
i in range(0, Len), mutating the rectangles in place.  none models an
uncaught IndexError. -/
def expand_rects (f : Frame) : Option Frame := do
  let n := f.items.length
  let pU := plus_for_upper_rect f
  let pL := plus_for_lower_rect f
  let items ← (List.range n).foldlM (expand_step pU pL n) f.items
  pure { f with items := items }

/-- Frame.get_processed_img: first expand_rects, then draw the contours
on the image (drawing is an external cv2 rendering side effect; the
Frame state it leaves behind is what the model returns). -/
def get_processed_img (f : Frame) : Option Frame :=
  expand_rects f

/-- The ratio the spec's words assign to the lower rectangle's upward
expansion: r = h_{i+1}^2 / (h_i^2 + h_{i+1}^2), stated so it can be
compared with what the source computes (refinement comparison only). -/
def ratio_for_lower_spec (hUpper hLower : ℤ) : ℚ :=
  ((hLower * hLower : ℤ) : ℚ) / ((hUpper * hUpper + hLower * hLower : ℤ) : ℚ)

/-- Truncation toward zero of a rational: what numpy astype does to a
(finite) float value.  Used in statements; tdiv_model is its computable
image on exact quotients of integers. -/
def truncQ (q : ℚ) : ℤ := if 0 ≤ q then ⌊q⌋ else ⌈q⌉

/-- The loop invariant of the expansion pass: each rectangle's top has
only moved up and its bottom only moved down relative to the original. -/
def ExpandedFrom (orig cur : List Entry) : Prop :=
  orig.length = cur.length ∧
  ∀ (i : ℕ) (a b : Entry), orig[i]? = some a → cur[i]? = some b →
    b.rect.top ≤ a.rect.top ∧ a.rect.bottom ≤ b.rect.bottom

/-! ## Concrete witness data -/

/-- A frame with two well-separated rectangles in reading order: heights
10 and 20, inter-contour gap 70, all inside a 200 x 50 frame. -/
def Fex : Frame :=
  { height := 200, width := 50,
    items := [ { rect := { top := 0, bottom := 10, left := 0, right := 5 },
                 contour := { p0y := 0, p1y := 10 } },
               { rect := { top := 80, bottom := 100, left := 0, right := 5 },
                 contour := { p0y := 80, p1y := 100 } } ] }

/-- The result of expand_rects on Fex: ratio_for_lower = 100/500, so the
lower rectangle moves up by trunc(0.2 * 70) = 14 and the upper takes the
remaining 56 below, above, and the lower also takes 14 below. -/
def FexRes : Frame :=
  { height := 200, width := 50,
    items := [ { rect := { top := -56, bottom := 66, left := 0, right := 5 },
                 contour := { p0y := 0, p1y := 10 } },
               { rect := { top := 66, bottom := 114, left := 0, right := 5 },
                 contour := { p0y := 80, p1y := 100 } } ] }

/-- A frame whose two contours overlap vertically: the inter-contour gap
is 30 - 50 = -20. -/
def Fneg : Frame :=
  { height := 100, width := 50,
    items := [ { rect := { top := 0, bottom := 50, left := 0, right := 5 },
                 contour := { p0y := 0, p1y := 50 } },
               { rect := { top := 30, bottom := 90, left := 0, right := 5 },
                 contour := { p0y := 30, p1y := 90 } } ] }

/-- The result of expand_rects on Fneg: both increments are negative
(-8 and -12) and every mutated edge moves inward — rectangles shrink. -/
def FnegRes : Frame :=
  { height := 100, width := 50,
    items := [ { rect := { top := 12, bottom := 38, left := 0, right := 5 },
                 contour := { p0y := 0, p1y := 50 } },
               { rect := { top := 38, bottom := 82, left := 0, right := 5 },
                 contour := { p0y := 30, p1y := 90 } } ] }

/-- A frame holding exactly one rectangle. -/
def Fone : Frame :=
  { height := 100, width := 50,
    items := [ { rect := { top := 20, bottom := 40, left := 0, right := 5 },
                 contour := { p0y := 20, p1y := 40 } } ] }

/-- A valid 3-channel uint8 image shape. -/
def imgRGB : Img := { dtype := Dtype.uint8, shape := [100, 50, 3] }

/-- Raw detection output listed out of reading order. -/
def rawUnsorted : List Entry :=
  [ { rect := { top := 80, bottom := 100, left := 0, right := 5 },
      contour := { p0y := 80, p1y := 100 } },
    { rect := { top := 0, bottom := 10, left := 0, right := 5 },
      contour := { p0y := 0, p1y := 10 } } ]

/-! ## The clustering-helper precondition (generate_row_label_Kmeans) -/

/-- The guard at the top of generate_row_label_Kmeans: the helper raises
TypeError iff img.shape[0] != img.size, where size is the product of all
dimensions.  (For the empty shape Python would raise an IndexError on
shape[0]; the helper is only ever called on 1-D row-average arrays, and the
headD 0 convention is never exercised in the claims below.)  true means
the TypeError is raised, false means clustering proceeds. -/
def km_guard_raises (shape : List ℕ) : Bool :=
  shape.headD 0 != shape.prod

/-! ## Truncation toward zero on ℚ and the bridge to tdiv_model -/

theorem truncQ_intCast (g : ℤ) : truncQ (g : ℚ) = g := by
  rw [truncQ]
  split <;> simp

theorem floor_intCast_div (x y : ℤ) (hy : 0 ≤ y) :
    ⌊(x : ℚ) / (y : ℚ)⌋ = x / y := by
  have h : (y : ℚ) = ((y.toNat : ℕ) : ℚ) := by
    exact_mod_cast congrArg (fun z : ℤ => (z : ℚ)) (Int.toNat_of_nonneg hy).symm
  have h2 : x / y = x / (y.toNat : ℤ) := by
    rw [Int.toNat_of_nonneg hy]
  rw [h, h2, Rat.floor_intCast_div_natCast]

/-- The bridge: tdiv_model computes the truncation toward zero of the
exact rational x / y, for a nonnegative denominator. -/
theorem tdiv_model_eq_truncQ (x y : ℤ) (hy : 0 ≤ y) :
    tdiv_model x y = truncQ ((x : ℚ) / (y : ℚ)) := by
  rcases eq_or_lt_of_le hy with hy0 | hy0
  · subst hy0
    simp [tdiv_model, truncQ, Int.ediv_zero]
  · rw [tdiv_model, truncQ]
    rcases le_or_lt 0 x with hx | hx
    · rw [if_pos hx, if_pos (by positivity), floor_intCast_div x y hy]
    · have hq : (x : ℚ) / (y : ℚ) < 0 :=
        div_neg_of_neg_of_pos (by exact_mod_cast hx) (by exact_mod_cast hy0)
      rw [if_neg (not_le.mpr hx), if_neg (not_le.mpr hq)]
      have hceil : ⌈(x : ℚ) / (y : ℚ)⌉ = -⌊-((x : ℚ) / (y : ℚ))⌋ := by
        rw [Int.floor_neg, neg_neg]
      rw [hceil, ← neg_div, ← Int.cast_neg, floor_intCast_div (-x) y hy]

/-- The truncation differs from its argument by strictly less than one. -/
theorem truncQ_residual (q : ℚ) : |q - (truncQ q : ℚ)| < 1 := by
  rw [truncQ]
  rcases le_or_lt 0 q with h | h
  · rw [if_pos h, abs_sub_lt_iff]
    constructor
    · linarith [Int.sub_one_lt_floor q]
    · linarith [Int.floor_le q]
  · rw [if_neg (not_le.mpr h), abs_sub_lt_iff]
    constructor
    · linarith [Int.le_ceil q]
    · linarith [Int.ceil_lt_add_one q]

theorem truncQ_nonneg (q : ℚ) (h : 0 ≤ q) : 0 ≤ truncQ q := by
  rw [truncQ, if_pos h]
  exact Int.floor_nonneg.mpr h

theorem truncQ_le_of_le_intCast (q : ℚ) (g : ℤ) (h0 : 0 ≤ q) (h : q ≤ (g : ℚ)) :
    truncQ q ≤ g := by
  rw [truncQ, if_pos h0]
  calc ⌊q⌋ ≤ ⌊(g : ℚ)⌋ := Int.floor_le_floor h
  _ = g := Int.floor_intCast g

theorem truncQ_nonpos (q : ℚ) (h : q ≤ 0) : truncQ q ≤ 0 := by
  rw [truncQ]
  split
  · have : (0 : ℚ) ≤ q := by assumption
    have hq : q = 0 := le_antisymm h this
    simp [hq]
  · exact Int.ceil_le.mpr (by simpa using h)

theorem intCast_le_truncQ_of_le (q : ℚ) (g : ℤ) (h0 : q ≤ 0) (h : (g : ℚ) ≤ q) :
    g ≤ truncQ q := by
  rw [truncQ]
  split
  · calc g ≤ ⌊q⌋ := Int.le_floor.mpr h
    _ ≤ ⌊q⌋ := le_refl _
  · calc (g : ℤ) = ⌈(g : ℚ)⌉ := (Int.ceil_intCast g).symm
    _ ≤ ⌈q⌉ := Int.ceil_le_ceil h

/-- Bounds on the modelled increment trunc((a/b)·g) for a nonnegative
gap: with 0 ≤ a ≤ b (a ratio between 0 and 1) the increment lies in
[0, g]. -/
theorem tdiv_model_bounds_nonneg (a b g : ℤ) (ha : 0 ≤ a) (hab : a ≤ b)
    (hg : 0 ≤ g) : 0 ≤ tdiv_model (a * g) b ∧ tdiv_model (a * g) b ≤ g := by
  have hb : 0 ≤ b := le_trans ha hab
  rw [tdiv_model_eq_truncQ (a * g) b hb]
  rcases eq_or_lt_of_le hb with hb0 | hb0
  · subst hb0
    constructor
    · simp [truncQ]
    · simp [truncQ]
      omega
  · have hq0 : 0 ≤ ((a * g : ℤ) : ℚ) / (b : ℚ) := by
      apply div_nonneg
      · exact_mod_cast mul_nonneg ha hg
      · exact_mod_cast le_of_lt hb0
    refine ⟨truncQ_nonneg _ hq0, truncQ_le_of_le_intCast _ g hq0 ?_⟩
    rw [div_le_iff₀ (by exact_mod_cast hb0)]
    push_cast
    have : (a : ℚ) * g ≤ (b : ℚ) * g := by
      apply mul_le_mul_of_nonneg_right
      · exact_mod_cast hab
      · exact_mod_cast hg
    linarith

/-- Bounds on the modelled increment for a negative gap: with
0 ≤ a ≤ b the increment lies in [g, 0] — it is nonpositive. -/
theorem tdiv_model_bounds_neg (a b g : ℤ) (ha : 0 ≤ a) (hab : a ≤ b)
    (hg : g < 0) : g ≤ tdiv_model (a * g) b ∧ tdiv_model (a * g) b ≤ 0 := by
  have hb : 0 ≤ b := le_trans ha hab
  rw [tdiv_model_eq_truncQ (a * g) b hb]
  rcases eq_or_lt_of_le hb with hb0 | hb0
  · subst hb0
    simp [truncQ]
    omega
  · have hq0 : ((a * g : ℤ) : ℚ) / (b : ℚ) ≤ 0 := by
      apply div_nonpos_of_nonpos_of_nonneg
      · exact_mod_cast mul_nonpos_of_nonneg_of_nonpos ha (le_of_lt hg)
      · exact_mod_cast le_of_lt hb0
    refine ⟨intCast_le_truncQ_of_le _ g hq0 ?_, truncQ_nonpos _ hq0⟩
    rw [le_div_iff₀ (by exact_mod_cast hb0)]
    push_cast
    have : (a : ℚ) * g ≥ (b : ℚ) * g := by
      apply mul_le_mul_of_nonpos_right
      · exact_mod_cast hab
      · exact_mod_cast le_of_lt hg
    linarith

/-! ## Index characterizations of the arrays computed by expand_rects -/

theorem length_contours_height (f : Frame) :
    (contours_height f).length = f.items.length := by
  simp [contours_height]

theorem length_height_sq (f : Frame) :
    (height_sq f).length = f.items.length := by
  simp [height_sq, length_contours_height]

theorem length_rollLeft (l : List ℤ) : (rollLeft l).length = l.length := by
  simp [rollLeft]
  omega

theorem length_denomList (f : Frame) :
    (denomList f).length = f.items.length := by
  simp [denomList, length_rollLeft, length_height_sq]

theorem length_distList (f : Frame) :
    (distList f).length = f.items.length - 1 := by
  simp [distList]

theorem length_plus_for_lower_rect (f : Frame) :
    (plus_for_lower_rect f).length = f.items.length - 1 := by
  simp [plus_for_lower_rect, ratio_for_lower_num, ratio_for_lower_den,
    length_height_sq, length_denomList, length_distList]

theorem length_plus_for_upper_rect (f : Frame) :
    (plus_for_upper_rect f).length = f.items.length - 1 := by
  simp [plus_for_upper_rect, length_distList, length_plus_for_lower_rect]

theorem getElem?_rollLeft (l : List ℤ) (i : ℕ) (h : i + 1 < l.length) :
    (rollLeft l)[i]? = l[i + 1]? := by
  rw [rollLeft, List.getElem?_append_left (by simp; omega)]
  rw [List.getElem?_drop]
  congr 1
  omega

theorem getElem?_dropLast_of_lt (l : List ℤ) (i : ℕ) (h : i + 1 < l.length) :
    l.dropLast[i]? = l[i]? := by
  rw [List.dropLast_eq_take, List.getElem?_take_of_lt (by omega)]

theorem height_sq_getElem (f : Frame) (i : ℕ) (a : Entry)
    (ha : f.items[i]? = some a) :
    (height_sq f)[i]? = some (a.rect.height * a.rect.height) := by
  simp [height_sq, contours_height, List.getElem?_map, ha]

theorem denomList_getElem (f : Frame) (i : ℕ) (a b : Entry)
    (ha : f.items[i]? = some a) (hb : f.items[i + 1]? = some b) :
    (denomList f)[i]? =
      some (b.rect.height * b.rect.height + a.rect.height * a.rect.height) := by
  have hlt : i + 1 < f.items.length := by
    have := List.getElem?_eq_some.mp hb
    exact this.1
  rw [denomList, List.getElem?_zipWith]
  rw [getElem?_rollLeft _ _ (by rw [length_height_sq]; exact hlt)]
  rw [height_sq_getElem f i a ha, height_sq_getElem f (i + 1) b hb]

theorem distList_getElem (f : Frame) (i : ℕ) (a b : Entry)
    (ha : f.items[i]? = some a) (hb : f.items[i + 1]? = some b) :
    (distList f)[i]? = some (b.contour.p0y - a.contour.p1y) := by
  rw [distList, List.getElem?_zipWith, ha, List.getElem?_drop]
  rw [show 1 + i = i + 1 by omega, hb]

theorem plus_for_lower_rect_getElem (f : Frame) (i : ℕ) (a b : Entry)
    (ha : f.items[i]? = some a) (hb : f.items[i + 1]? = some b) :
    (plus_for_lower_rect f)[i]? =
      some (tdiv_model
        (a.rect.height * a.rect.height * (b.contour.p0y - a.contour.p1y))
        (b.rect.height * b.rect.height + a.rect.height * a.rect.height)) := by
  have hlt : i + 1 < f.items.length := (List.getElem?_eq_some.mp hb).1
  rw [plus_for_lower_rect, List.getElem?_zipWith, List.zip_eq_zipWith,
    List.getElem?_zipWith]
  rw [ratio_for_lower_num, ratio_for_lower_den]
  rw [getElem?_dropLast_of_lt _ _ (by rw [length_height_sq]; exact hlt)]
  rw [getElem?_dropLast_of_lt _ _ (by rw [length_denomList]; exact hlt)]
  rw [height_sq_getElem f i a ha, denomList_getElem f i a b ha hb,
    distList_getElem f i a b ha hb]

theorem plus_for_upper_rect_getElem (f : Frame) (i : ℕ) (a b : Entry)
    (ha : f.items[i]? = some a) (hb : f.items[i + 1]? = some b) :
    (plus_for_upper_rect f)[i]? =
      some ((b.contour.p0y - a.contour.p1y) - tdiv_model
        (a.rect.height * a.rect.height * (b.contour.p0y - a.contour.p1y))
        (b.rect.height * b.rect.height + a.rect.height * a.rect.height)) := by
  rw [plus_for_upper_rect, List.getElem?_zipWith,
    distList_getElem f i a b ha hb, plus_for_lower_rect_getElem f i a b ha hb]

/-- Any in-range index of the entry list is inhabited. -/
theorem exists_entry_of_lt (f : Frame) (i : ℕ) (h : i < f.items.length) :
    ∃ a, f.items[i]? = some a := by
  refine ⟨f.items.get ⟨i, h⟩, ?_⟩
  rw [List.getElem?_eq_getElem h]
  simp [List.get_eq_getElem]

/-- Recover the adjacent entry pair behind any in-range index of the
increment arrays. -/
theorem exists_pair_of_lt (f : Frame) (i : ℕ) (h : i + 1 < f.items.length) :
    ∃ a b, f.items[i]? = some a ∧ f.items[i + 1]? = some b := by
  have h0 : i < f.items.length := by omega
  refine ⟨f.items.get ⟨i, h0⟩, f.items.get ⟨i + 1, h⟩, ?_, ?_⟩
  · rw [List.getElem?_eq_getElem h0]
    simp [List.get_eq_getElem]
  · rw [List.getElem?_eq_getElem h]
    simp [List.get_eq_getElem]

/-! ## The expansion loop as a relation between entry lists -/

theorem length_modifyIdx (l : List Entry) (i : ℕ) (g : Entry → Entry) :
    (modifyIdx l i g).length = l.length := by
  induction l generalizing i with
  | nil => simp [modifyIdx]
  | cons x xs ih =>
    cases i with
    | zero => simp [modifyIdx]
    | succ j => simp [modifyIdx, ih]

theorem getElem?_modifyIdx (l : List Entry) (i j : ℕ) (g : Entry → Entry) :
    (modifyIdx l i g)[j]? = if i = j then (l[j]?).map g else l[j]? := by
  induction l generalizing i j with
  | nil => simp [modifyIdx]
  | cons x xs ih =>
    cases i with
    | zero =>
      cases j with
      | zero => simp [modifyIdx]
      | succ j' => simp [modifyIdx]
    | succ i' =>
      cases j with
      | zero => simp [modifyIdx]
      | succ j' =>
        simp only [modifyIdx, List.getElem?_cons_succ, ih]
        by_cases hij : i' = j' <;> simp [hij]

theorem ExpandedFrom.refl (l : List Entry) : ExpandedFrom l l := by
  refine ⟨rfl, fun i a b ha hb => ?_⟩
  rw [ha] at hb
  cases hb
  exact ⟨le_refl _, le_refl _⟩

theorem ExpandedFrom.trans {l1 l2 l3 : List Entry}
    (h12 : ExpandedFrom l1 l2) (h23 : ExpandedFrom l2 l3) :
    ExpandedFrom l1 l3 := by
  refine ⟨h12.1.trans h23.1, fun i a c ha hc => ?_⟩
  rcases hb : l2[i]? with _ | b
  · rw [List.getElem?_eq_none_iff] at hb
    have hlt : i < l1.length := (List.getElem?_eq_some.mp ha).1
    have hlen := h12.1
    omega
  · obtain ⟨h1, h2⟩ := h12.2 i a b ha hb
    obtain ⟨h3, h4⟩ := h23.2 i b c hb hc
    exact ⟨h3.trans h1, h2.trans h4⟩

theorem expandedFrom_modify_below (l : List Entry) (k : ℕ) (d : ℤ)
    (hd : 0 ≤ d) :
    ExpandedFrom l (modifyIdx l k (fun e => e.expand_below d)) := by
  refine ⟨(length_modifyIdx l k _).symm, fun i a b ha hb => ?_⟩
  rw [getElem?_modifyIdx] at hb
  by_cases hk : k = i
  · rw [if_pos hk, ha] at hb
    cases hb
    refine ⟨by simp [Entry.expand_below, Rect.expand_below], ?_⟩
    simp only [Entry.expand_below, Rect.expand_below]
    omega
  · rw [if_neg hk, ha] at hb
    cases hb
    exact ⟨le_refl _, le_refl _⟩

theorem expandedFrom_modify_above (l : List Entry) (k : ℕ) (d : ℤ)
    (hd : 0 ≤ d) :
    ExpandedFrom l (modifyIdx l k (fun e => e.expand_above d)) := by
  refine ⟨(length_modifyIdx l k _).symm, fun i a b ha hb => ?_⟩
  rw [getElem?_modifyIdx] at hb
  by_cases hk : k = i
  · rw [if_pos hk, ha] at hb
    cases hb
    refine ⟨?_, by simp [Entry.expand_above, Rect.expand_above]⟩
    simp only [Entry.expand_above, Rect.expand_above]
    omega
  · rw [if_neg hk, ha] at hb
    cases hb
    exact ⟨le_refl _, le_refl _⟩

theorem pyGet_mem (l : List ℤ) (i : ℤ) (x : ℤ) (h : pyGet l i = some x) :
    x ∈ l := by
  rw [pyGet] at h
  split at h
  · exact List.mem_iff_getElem?.mpr ⟨_, h⟩
  · split at h
    · exact List.mem_iff_getElem?.mpr ⟨_, h⟩
    · cases h

/-- A generic invariant-propagation principle for foldlM over Option. -/
theorem foldlM_rel {α β : Type} (R : α → α → Prop)
    (hrefl : ∀ a, R a a) (htrans : ∀ {a b c}, R a b → R b c → R a c)
    (step : α → β → Option α)
    (hstep : ∀ a b a2, step a b = some a2 → R a a2) :
    ∀ (l : List β) (a a2 : α), List.foldlM step a l = some a2 → R a a2 := by
  intro l
  induction l with
  | nil =>
    intro a a2 h
    cases h
    exact hrefl a
  | cons b bs ih =>
    intro a a2 h
    rw [List.foldlM_cons] at h
    obtain ⟨a1, h1, h2⟩ := Option.bind_eq_some.mp h
    exact htrans (hstep a b a1 h1) (ih a1 a2 h2)

theorem expand_step_pair_rel (pU pL : List ℤ) (n i : ℕ)
    (hU : ∀ x ∈ pU, 0 ≤ x) (hL : ∀ x ∈ pL, 0 ≤ x)
    (xs ys : List Entry) (h : expand_step_pair pU pL n i xs = some ys) :
    ExpandedFrom xs ys := by
  rw [expand_step_pair] at h
  split at h
  · obtain ⟨du, hdu, h⟩ := Option.bind_eq_some.mp h
    obtain ⟨dl, hdl, h⟩ := Option.bind_eq_some.mp h
    cases h
    exact (expandedFrom_modify_below xs i du
      (hU du (pyGet_mem _ _ _ hdu))).trans
      (expandedFrom_modify_above _ (i + 1) dl (hL dl (pyGet_mem _ _ _ hdl)))
  · cases h
    exact ExpandedFrom.refl xs

theorem expand_step_first_rel (pU : List ℤ) (i : ℕ)
    (hU : ∀ x ∈ pU, 0 ≤ x)
    (xs ys : List Entry) (h : expand_step_first pU i xs = some ys) :
    ExpandedFrom xs ys := by
  rw [expand_step_first] at h
  split at h
  · obtain ⟨du, hdu, h⟩ := Option.bind_eq_some.mp h
    cases h
    exact expandedFrom_modify_above xs i du (hU du (pyGet_mem _ _ _ hdu))
  · cases h
    exact ExpandedFrom.refl xs

theorem expand_step_last_rel (pL : List ℤ) (n i : ℕ)
    (hL : ∀ x ∈ pL, 0 ≤ x)
    (xs ys : List Entry) (h : expand_step_last pL n i xs = some ys) :
    ExpandedFrom xs ys := by
  rw [expand_step_last] at h
  split at h
  · obtain ⟨dl, hdl, h⟩ := Option.bind_eq_some.mp h
    cases h
    exact expandedFrom_modify_below xs i dl (hL dl (pyGet_mem _ _ _ hdl))
  · cases h
    exact ExpandedFrom.refl xs

theorem expand_step_rel (pU pL : List ℤ) (n : ℕ)
    (hU : ∀ x ∈ pU, 0 ≤ x) (hL : ∀ x ∈ pL, 0 ≤ x)
    (xs : List Entry) (i : ℕ) (ys : List Entry)
    (h : expand_step pU pL n xs i = some ys) : ExpandedFrom xs ys := by
  rw [expand_step] at h
  obtain ⟨items1, h1, h⟩ := Option.bind_eq_some.mp h
  obtain ⟨items2, h2, h3⟩ := Option.bind_eq_some.mp h
  exact ((expand_step_pair_rel pU pL n i hU hL xs items1 h1).trans
    (expand_step_first_rel pU i hU items1 items2 h2)).trans
    (expand_step_last_rel pL n i hL items2 ys h3)

/-- With all inter-contour gaps nonnegative, every computed lower
increment is nonnegative (and bounded by its gap). -/
theorem plus_for_lower_rect_nonneg (f : Frame)
    (hgap : ∀ g ∈ distList f, 0 ≤ g) :
    ∀ x ∈ plus_for_lower_rect f, 0 ≤ x := by
  intro x hx
  obtain ⟨i, hxi⟩ := List.mem_iff_getElem?.mp hx
  have hlen : i < (plus_for_lower_rect f).length :=
    (List.getElem?_eq_some.mp hxi).1
  rw [length_plus_for_lower_rect] at hlen
  have hlt : i + 1 < f.items.length := by omega
  obtain ⟨a, b, ha, hb⟩ := exists_pair_of_lt f i hlt
  rw [plus_for_lower_rect_getElem f i a b ha hb] at hxi
  cases hxi
  have hg : 0 ≤ b.contour.p0y - a.contour.p1y := by
    apply hgap
    exact List.mem_iff_getElem?.mpr ⟨i, distList_getElem f i a b ha hb⟩
  exact (tdiv_model_bounds_nonneg _ _ _ (mul_self_nonneg _)
    (by nlinarith [mul_self_nonneg b.rect.height]) hg).1

/-- With all inter-contour gaps nonnegative, every computed upper
increment is nonnegative. -/
theorem plus_for_upper_rect_nonneg (f : Frame)
    (hgap : ∀ g ∈ distList f, 0 ≤ g) :
    ∀ x ∈ plus_for_upper_rect f, 0 ≤ x := by
  intro x hx
  obtain ⟨i, hxi⟩ := List.mem_iff_getElem?.mp hx
  have hlen : i < (plus_for_upper_rect f).length :=
    (List.getElem?_eq_some.mp hxi).1
  rw [length_plus_for_upper_rect] at hlen
  have hlt : i + 1 < f.items.length := by omega
  obtain ⟨a, b, ha, hb⟩ := exists_pair_of_lt f i hlt
  rw [plus_for_upper_rect_getElem f i a b ha hb] at hxi
  cases hxi
  have hg : 0 ≤ b.contour.p0y - a.contour.p1y := by
    apply hgap
    exact List.mem_iff_getElem?.mpr ⟨i, distList_getElem f i a b ha hb⟩
  have := (tdiv_model_bounds_nonneg
    (a.rect.height * a.rect.height)
    (b.rect.height * b.rect.height + a.rect.height * a.rect.height)
    (b.contour.p0y - a.contour.p1y) (mul_self_nonneg _)
    (by nlinarith [mul_self_nonneg b.rect.height]) hg).2
  omega

/-- The net effect of a successful expand_rects on the entry list. -/
theorem expand_rects_expandedFrom (f f' : Frame)
    (hgap : ∀ g ∈ distList f, 0 ≤ g)
    (h : expand_rects f = some f') : ExpandedFrom f.items f'.items := by
  rw [expand_rects] at h
  obtain ⟨items, h1, h2⟩ := Option.bind_eq_some.mp h
  cases h2
  exact foldlM_rel ExpandedFrom ExpandedFrom.refl ExpandedFrom.trans
    (expand_step (plus_for_upper_rect f) (plus_for_lower_rect f)
      f.items.length)
    (fun a b a2 hs => expand_step_rel _ _ _
      (plus_for_upper_rect_nonneg f hgap)
      (plus_for_lower_rect_nonneg f hgap) a b a2 hs)
    (List.range f.items.length) f.items items h1

/-! ## Shared per-pair characterizations in rational form -/

/-- The lower increment at pair i is the truncation of
(h_i^2 / (h_i^2 + h_{i+1}^2)) * gap_i, where index i is the upper
rectangle of the pair. -/
theorem plus_lower_eq_truncQ (f : Frame) (i : ℕ) (a b : Entry) (g l : ℤ)
    (ha : f.items[i]? = some a) (hb : f.items[i + 1]? = some b)
    (hg : (distList f)[i]? = some g)
    (hl : (plus_for_lower_rect f)[i]? = some l) :
    l = truncQ
      (((a.rect.height * a.rect.height : ℤ) : ℚ) /
        ((a.rect.height * a.rect.height + b.rect.height * b.rect.height : ℤ) : ℚ)
        * (g : ℚ)) := by
  rw [distList_getElem f i a b ha hb] at hg
  rw [plus_for_lower_rect_getElem f i a b ha hb] at hl
  cases hg
  cases hl
  rw [tdiv_model_eq_truncQ _ _
    (by nlinarith [mul_self_nonneg a.rect.height, mul_self_nonneg b.rect.height])]
  congr 1
  push_cast
  rw [div_mul_eq_mul_div]
  ring_nf

/-- The upper increment at pair i is the gap minus the lower increment. -/
theorem plus_upper_eq_gap_sub_lower (f : Frame) (i : ℕ) (a b : Entry)
    (g l u : ℤ)
    (ha : f.items[i]? = some a) (hb : f.items[i + 1]? = some b)
    (hg : (distList f)[i]? = some g)
    (hl : (plus_for_lower_rect f)[i]? = some l)
    (hu : (plus_for_upper_rect f)[i]? = some u) :
    u = g - l := by
  rw [distList_getElem f i a b ha hb] at hg
  rw [plus_for_lower_rect_getElem f i a b ha hb] at hl
  rw [plus_for_upper_rect_getElem f i a b ha hb] at hu
  cases hg
  cases hl
  cases hu
  rfl

/-! ## The claims -/

/-- C1: the claim states that for a RectangleSet with exactly one
rectangle, expand_rects performs no expansion and completes without
error.  The code disagrees: with Len = 1 both increment arrays are
empty, yet the i == 0 branch indexes plus_for_upper_rect[0] (and the
i == Len-1 branch would index plus_for_lower_rect[-1]), so the call
raises IndexError (modelled as none) instead of returning unchanged. -/
theorem expand_rects_singleton_raises (f : Frame) (h : f.items.length = 1) :
    expand_rects f = none := by
  have hpU : plus_for_upper_rect f = [] := by
    rw [← List.length_eq_zero, length_plus_for_upper_rect, h]
  have hpL : plus_for_lower_rect f = [] := by
    rw [← List.length_eq_zero, length_plus_for_lower_rect, h]
  have hstep : expand_step [] [] 1 f.items 0 = none := by
    simp [expand_step, expand_step_pair, expand_step_first, expand_step_last,
      pyGet]
  rw [expand_rects]
  simp [h, hpU, hpL, List.range_succ, List.range_zero, List.foldlM_cons,
    List.foldlM_nil, hstep]

/-- Witness for C1 at a concrete one-rectangle frame. -/
theorem expand_rects_singleton_raises_witness :
    Fone.items.length = 1 ∧ expand_rects Fone = none :=
  ⟨by decide, expand_rects_singleton_raises Fone (by decide)⟩

/-- C2 counterexample: in the frame Fex the upper rectangle has height
10 and the lower height 20, with inter-contour gap 70.  The claimed
ratio r = h_{i+1}^2/(h_i^2 + h_{i+1}^2) = 400/500 would give the lower
rectangle an upward increment of 56, but the code computes
ratio_for_lower = h_i^2/(h_i^2 + h_{i+1}^2) = 100/500 and assigns 14. -/
theorem expand_rects_ratio_counterexample :
    contours_height Fex = [10, 20] ∧
    distList Fex = [70] ∧
    plus_for_lower_rect Fex = [14] ∧
    truncQ (ratio_for_lower_spec 10 20 * ((70 : ℤ) : ℚ)) = 56 ∧
    (14 : ℤ) ≠ 56 ∧
    expand_rects Fex = some FexRes := by
  refine ⟨by decide, by decide, by decide, ?_, by decide, by decide⟩
  have h : ratio_for_lower_spec 10 20 * ((70 : ℤ) : ℚ) = ((56 : ℤ) : ℚ) := by
    rw [ratio_for_lower_spec]
    norm_num
  rw [h, truncQ_intCast]

/-- C2 (amended): for every adjacent pair (i, i+1) the lower
rectangle's upward increment is the truncation of
r * gap with r = h_i^2 / (h_i^2 + h_{i+1}^2) — the fraction is
proportional to the UPPER rectangle's squared height — and the upper
rectangle's downward increment is the remainder gap - trunc(r * gap). -/
theorem expand_rects_ratio_for_lower (f : Frame) (i : ℕ) (a b : Entry)
    (g l u : ℤ)
    (ha : f.items[i]? = some a) (hb : f.items[i + 1]? = some b)
    (hg : (distList f)[i]? = some g)
    (hl : (plus_for_lower_rect f)[i]? = some l)
    (hu : (plus_for_upper_rect f)[i]? = some u) :
    l = truncQ
      (((a.rect.height * a.rect.height : ℤ) : ℚ) /
        ((a.rect.height * a.rect.height + b.rect.height * b.rect.height : ℤ) : ℚ)
        * (g : ℚ)) ∧
    u = g - l :=
  ⟨plus_lower_eq_truncQ f i a b g l ha hb hg hl,
   plus_upper_eq_gap_sub_lower f i a b g l u ha hb hg hl hu⟩

/-- Witness for the amended C2 at the concrete frame Fex (heights 10
and 20, gap 70): the lower increment is trunc(100/500 * 70) = 14 and
the upper increment 56 = 70 - 14. -/
theorem expand_rects_ratio_for_lower_witness :
    (14 : ℤ) = truncQ (((10 * 10 : ℤ) : ℚ) /
      ((10 * 10 + 20 * 20 : ℤ) : ℚ) * ((70 : ℤ) : ℚ)) ∧
    (56 : ℤ) = 70 - 14 :=
  expand_rects_ratio_for_lower Fex 0
    { rect := { top := 0, bottom := 10, left := 0, right := 5 },
      contour := { p0y := 0, p1y := 10 } }
    { rect := { top := 80, bottom := 100, left := 0, right := 5 },
      contour := { p0y := 80, p1y := 100 } }
    70 14 56 (by decide) (by decide) (by decide) (by decide) (by decide)

/-- C4 counterexample: in the frame Fneg the contours overlap, the gap
is -20, and no clamping happens: the computed increments are -8 and
-12, and expand_rects shrinks both rectangles (the first bottom moves
from 50 up to 38). -/
theorem expand_rects_negative_gap_counterexample :
    distList Fneg = [-20] ∧
    plus_for_lower_rect Fneg = [-8] ∧
    plus_for_upper_rect Fneg = [-12] ∧
    ¬(0 ≤ (-8 : ℤ)) ∧
    expand_rects Fneg = some FnegRes ∧
    FnegRes.items.map (fun e => e.rect.bottom) = [38, 82] ∧
    (38 : ℤ) < 50 := by
  refine ⟨by decide, by decide, by decide, by decide, by decide, by decide,
    by decide⟩

/-- C4 (amended): a negative inter-contour gap is not clamped to 0:
for an adjacent pair with gap < 0 both computed increments are ≤ 0, so
the pair's rectangles are shrunk rather than expanded. -/
theorem expand_rects_negative_gap_not_clamped (f : Frame) (i : ℕ)
    (a b : Entry) (g l u : ℤ)
    (ha : f.items[i]? = some a) (hb : f.items[i + 1]? = some b)
    (hg : (distList f)[i]? = some g)
    (hl : (plus_for_lower_rect f)[i]? = some l)
    (hu : (plus_for_upper_rect f)[i]? = some u)
    (hneg : g < 0) : l ≤ 0 ∧ u ≤ 0 := by
  have hu2 := plus_upper_eq_gap_sub_lower f i a b g l u ha hb hg hl hu
  rw [distList_getElem f i a b ha hb] at hg
  rw [plus_for_lower_rect_getElem f i a b ha hb] at hl
  cases hg
  cases hl
  have hb2 := tdiv_model_bounds_neg
    (a.rect.height * a.rect.height)
    (b.rect.height * b.rect.height + a.rect.height * a.rect.height)
    (b.contour.p0y - a.contour.p1y) (mul_self_nonneg _)
    (by nlinarith [mul_self_nonneg b.rect.height]) hneg
  omega

/-- Witness for the amended C4 at the concrete frame Fneg (gap -20):
the increments -8 and -12 are nonpositive. -/
theorem expand_rects_negative_gap_not_clamped_witness :
    (-8 : ℤ) ≤ 0 ∧ (-12 : ℤ) ≤ 0 :=
  expand_rects_negative_gap_not_clamped Fneg 0
    { rect := { top := 0, bottom := 50, left := 0, right := 5 },
      contour := { p0y := 0, p1y := 50 } }
    { rect := { top := 30, bottom := 90, left := 0, right := 5 },
      contour := { p0y := 30, p1y := 90 } }
    (-20) (-8) (-12) (by decide) (by decide) (by decide) (by decide)
    (by decide) (by decide)

/-- C5: for every adjacent pair the upper rectangle's downward
increment plus the lower rectangle's upward increment equals the
original inter-contour gap exactly (plus_for_upper_rect is literally
dist - plus_for_lower_rect), and each truncated increment differs from
its ideal rational share r*gap resp. (1-r)*gap by at most one pixel. -/
theorem expand_rects_pair_sum_exact (f : Frame) (i : ℕ) (a b : Entry)
    (g l u : ℤ)
    (ha : f.items[i]? = some a) (hb : f.items[i + 1]? = some b)
    (hg : (distList f)[i]? = some g)
    (hl : (plus_for_lower_rect f)[i]? = some l)
    (hu : (plus_for_upper_rect f)[i]? = some u) :
    u + l = g ∧
    |((a.rect.height * a.rect.height : ℤ) : ℚ) /
        ((a.rect.height * a.rect.height + b.rect.height * b.rect.height : ℤ) : ℚ)
        * (g : ℚ) - (l : ℚ)| ≤ 1 ∧
    |(1 - ((a.rect.height * a.rect.height : ℤ) : ℚ) /
        ((a.rect.height * a.rect.height + b.rect.height * b.rect.height : ℤ) : ℚ))
        * (g : ℚ) - (u : ℚ)| ≤ 1 := by
  have hsum := plus_upper_eq_gap_sub_lower f i a b g l u ha hb hg hl hu
  have hlq := plus_lower_eq_truncQ f i a b g l ha hb hg hl
  set q : ℚ := ((a.rect.height * a.rect.height : ℤ) : ℚ) /
    ((a.rect.height * a.rect.height + b.rect.height * b.rect.height : ℤ) : ℚ)
    * (g : ℚ) with hq
  have hres : |q - (l : ℚ)| ≤ 1 := by
    rw [hlq]
    exact le_of_lt (truncQ_residual q)
  refine ⟨by omega, hres, ?_⟩
  have hcast : (u : ℚ) = (g : ℚ) - (l : ℚ) := by
    rw [hsum]
    push_cast
    ring
  have : (1 - ((a.rect.height * a.rect.height : ℤ) : ℚ) /
      ((a.rect.height * a.rect.height + b.rect.height * b.rect.height : ℤ) : ℚ))
      * (g : ℚ) - (u : ℚ) = -(q - (l : ℚ)) := by
    rw [hcast, hq]
    ring
  rw [this, abs_neg]
  exact hres

/-- Witness for C5 at the concrete frame Fex (heights 10 and 20, gap
70, increments 14 and 56). -/
theorem expand_rects_pair_sum_exact_witness :
    (56 : ℤ) + 14 = 70 ∧
    |((10 * 10 : ℤ) : ℚ) / ((10 * 10 + 20 * 20 : ℤ) : ℚ) * ((70 : ℤ) : ℚ)
      - ((14 : ℤ) : ℚ)| ≤ 1 ∧
    |(1 - ((10 * 10 : ℤ) : ℚ) / ((10 * 10 + 20 * 20 : ℤ) : ℚ))
      * ((70 : ℤ) : ℚ) - ((56 : ℤ) : ℚ)| ≤ 1 :=
  expand_rects_pair_sum_exact Fex 0
    { rect := { top := 0, bottom := 10, left := 0, right := 5 },
      contour := { p0y := 0, p1y := 10 } }
    { rect := { top := 80, bottom := 100, left := 0, right := 5 },
      contour := { p0y := 80, p1y := 100 } }
    70 14 56 (by decide) (by decide) (by decide) (by decide) (by decide)

/-- C3: Frame construction succeeds exactly when the input image is an
unsigned-8-bit array that is 2-D or 3-D with exactly 3 channels; any
image violating the shape/dtype invariants fails validation at
construction and does not proceed. -/
theorem frame_init_iff_valid (img : Img) (raw : List Entry) :
    (frame_init img raw).isSome = true ↔
      (img.dtype = Dtype.uint8 ∧
        (img.shape.length = 2 ∨
          (img.shape.length = 3 ∧ img.shape.getLastD 0 = 3))) := by
  rw [frame_init]
  by_cases h : check_rgb_img img = true
  · rw [if_pos h]
    simp only [Option.isSome_some, true_iff]
    simp only [check_rgb_img, Bool.and_eq_true, Bool.or_eq_true,
      beq_iff_eq] at h
    obtain ⟨⟨h1, h2⟩, h3⟩ := h
    refine ⟨h1, ?_⟩
    rcases h2 with h2 | h2
    · exact Or.inl h2
    · rw [if_pos (by rw [h2])] at h3
      exact Or.inr ⟨h2, by simpa using h3⟩
  · rw [if_neg h]
    simp only [Option.isSome_none, Bool.false_eq_true, false_iff]
    intro hcon
    apply h
    obtain ⟨h1, h2⟩ := hcon
    simp only [check_rgb_img, Bool.and_eq_true, Bool.or_eq_true, beq_iff_eq]
    rcases h2 with h2 | ⟨h2, h3⟩
    · refine ⟨⟨h1, Or.inl h2⟩, ?_⟩
      rw [if_neg (by omega)]
    · refine ⟨⟨h1, Or.inr h2⟩, ?_⟩
      rw [if_pos (by rw [h2])]
      simpa using h3

/-- C6 counterexample: the frame Fex is sorted, non-overlapping (gap
70 ≥ 0) and entirely inside its 200 x 50 bounds, yet after expand_rects
the first rectangle's top is -56, outside [0, height]. -/
theorem expand_rects_out_of_bounds_counterexample :
    List.Sorted readingOrder Fex.items ∧
    (∀ g ∈ distList Fex, 0 ≤ g) ∧
    (∀ e ∈ Fex.items, 0 ≤ e.rect.top ∧ e.rect.bottom ≤ Fex.height ∧
      0 ≤ e.rect.left ∧ e.rect.right ≤ Fex.width ∧
      e.rect.top ≤ e.rect.bottom) ∧
    expand_rects Fex = some FexRes ∧
    FexRes.items.map (fun e => e.rect.top) = [-56, 66] ∧
    ¬(0 ≤ (-56 : ℤ)) := by
  refine ⟨by decide, by decide, by decide, by decide, by decide, by decide⟩

/-- C6 (amended): for a sorted input whose inter-contour gaps are all
nonnegative and whose rectangles initially satisfy top ≤ bottom, every
rectangle still satisfies top ≤ bottom after expand_rects; but the
coordinates are NOT confined to [0, height] x [0, width]: the first
rectangle's top (and the last rectangle's bottom) can leave the frame,
as the counterexample shows. -/
theorem expand_rects_top_le_bottom (f f' : Frame)
    (hsorted : List.Sorted readingOrder f.items)
    (hvalid : ∀ e ∈ f.items, e.rect.top ≤ e.rect.bottom)
    (hgap : ∀ g ∈ distList f, 0 ≤ g)
    (h : expand_rects f = some f') :
    ∀ e ∈ f'.items, e.rect.top ≤ e.rect.bottom := by
  intro e he
  obtain ⟨i, hei⟩ := List.mem_iff_getElem?.mp he
  have hrel := expand_rects_expandedFrom f f' hgap h
  have hlen : i < f'.items.length := (List.getElem?_eq_some.mp hei).1
  have hlt : i < f.items.length := by
    have := hrel.1
    omega
  obtain ⟨a, ha⟩ := exists_entry_of_lt f i hlt
  obtain ⟨h1, h2⟩ := hrel.2 i a e ha hei
  have h3 := hvalid a (List.mem_iff_getElem?.mpr ⟨i, ha⟩)
  omega

/-- Witness for the amended C6 at the concrete frame Fex: after
expansion both rectangles of FexRes satisfy top ≤ bottom. -/
theorem expand_rects_top_le_bottom_witness :
    (-56 : ℤ) ≤ 66 ∧ (66 : ℤ) ≤ 114 :=
  ⟨expand_rects_top_le_bottom Fex FexRes (by decide) (by decide) (by decide)
      (by decide)
      { rect := { top := -56, bottom := 66, left := 0, right := 5 },
        contour := { p0y := 0, p1y := 10 } } (by decide),
   expand_rects_top_le_bottom Fex FexRes (by decide) (by decide) (by decide)
      (by decide)
      { rect := { top := 66, bottom := 114, left := 0, right := 5 },
        contour := { p0y := 80, p1y := 100 } } (by decide)⟩

/-- C7: whenever the odd-rounding helper receives a positive size, its
result is an odd integer ≥ 1; at the effective-zone call site this
holds unconditionally (the formula is clamped by max(·, 1) before
rounding, and __to_odd is applied a second time on the already odd
size), and at the mask-generator call site it holds whenever the size
formula blur_rate * dim // 100 is positive. -/
theorem to_odd_kernel_odd_and_positive :
    (∀ x : ℚ, 0 < x → to_odd x % 2 = 1 ∧ 1 ≤ to_odd x) ∧
    (∀ (rate : ℚ) (dim : ℤ),
      gauss_kernel_zone rate dim % 2 = 1 ∧ 1 ≤ gauss_kernel_zone rate dim) ∧
    (∀ (rate : ℚ) (dim : ℤ), 0 < ⌊rate * (dim : ℚ) / 100⌋ →
      gauss_size_mask rate dim % 2 = 1 ∧ 1 ≤ gauss_size_mask rate dim) := by
  have core : ∀ x : ℚ, 0 < x → to_odd x % 2 = 1 ∧ 1 ≤ to_odd x := by
    intro x hx
    have hy0 : 0 < ⌈x⌉ := Int.ceil_pos.mpr hx
    have hy : 1 ≤ ⌈x⌉ := by omega
    rw [to_odd]
    split
    · constructor
      · assumption
      · exact hy
    · constructor <;> omega
  refine ⟨core, ?_, ?_⟩
  · intro rate dim
    have hzone : 0 < (max ((⌊rate * (dim : ℚ) / 100⌋ : ℤ) : ℚ) 1) := by
      have : (0 : ℚ) < 1 := by norm_num
      exact lt_of_lt_of_le this (le_max_right _ _)
    have h1 := core _ hzone
    rw [gauss_kernel_zone]
    apply core
    rw [gauss_size_zone]
    exact_mod_cast lt_of_lt_of_le Int.zero_lt_one h1.2
  · intro rate dim hpos
    rw [gauss_size_mask]
    apply core
    exact_mod_cast hpos

/-- Witness for C7: a positive helper input, the zone site at rate 1.5
and width 200, and the mask site at rate 1.5 and width 200 (where the
size formula evaluates to 3). -/
theorem to_odd_kernel_odd_and_positive_witness :
    (to_odd (1 / 2) % 2 = 1 ∧ 1 ≤ to_odd (1 / 2)) ∧
    (gauss_kernel_zone (3 / 2) 200 % 2 = 1 ∧
      1 ≤ gauss_kernel_zone (3 / 2) 200) ∧
    (gauss_size_mask (3 / 2) 200 % 2 = 1 ∧
      1 ≤ gauss_size_mask (3 / 2) 200) :=
  ⟨to_odd_kernel_odd_and_positive.1 (1 / 2) (by norm_num),
   to_odd_kernel_odd_and_positive.2.1 (3 / 2) 200,
   to_odd_kernel_odd_and_positive.2.2 (3 / 2) 200 (by
    have h : (3 / 2 : ℚ) * ((200 : ℤ) : ℚ) / 100 = ((3 : ℤ) : ℚ) := by
      push_cast
      norm_num
    rw [h, Int.floor_intCast]
    norm_num)⟩

/-- C8: the clustering helper raises exactly when its input's first
dimension differs from its total element count; in particular every
1-D row-average array and every single-column 2-D array passes, and a
2-D array with r rows and c columns is rejected iff it is nonempty
with c ≠ 1. -/
theorem km_guard_raises_iff_multicolumn :
    ∀ r c : ℕ,
      km_guard_raises [r] = false ∧
      km_guard_raises [r, 1] = false ∧
      (km_guard_raises [r, c] = true ↔ 0 < r ∧ c ≠ 1) := by
  intro r c
  refine ⟨by simp [km_guard_raises], by simp [km_guard_raises], ?_⟩
  simp only [km_guard_raises, List.headD_cons, List.prod_cons, List.prod_nil,
    bne_iff_ne, ne_eq, mul_one]
  constructor
  · intro h
    constructor
    · rcases Nat.eq_zero_or_pos r with h0 | h0
      · exact absurd (by rw [h0]; ring) h
      · exact h0
    · intro hc
      exact h (by rw [hc, mul_one])
  · rintro ⟨hr, hc⟩ h
    rcases mul_right_eq_self₀.mp h.symm with h1 | h1
    · exact hc h1
    · omega

/-- C9: get_processed_img re-runs expand_rects before drawing, so it is
not idempotent: on the two-rectangle frame Fex with gap 70, one call
produces edges [(-56, 66), (66, 114)], while a second call expands
again (the gaps are re-read from the unchanged contours) and produces
[(-66, 76), (6, 174)]. -/
theorem get_processed_img_not_idempotent :
    Fex.items.length = 2 ∧
    distList Fex = [70] ∧
    (get_processed_img Fex).map
      (fun f => f.items.map fun e => (e.rect.top, e.rect.bottom)) =
      some [(-56, 66), (66, 114)] ∧
    ((get_processed_img Fex).bind get_processed_img).map
      (fun f => f.items.map fun e => (e.rect.top, e.rect.bottom)) =
      some [(-66, 76), (6, 174)] ∧
    (get_processed_img Fex).bind get_processed_img ≠
      get_processed_img Fex := by
  refine ⟨by decide, by decide, by decide, by decide, by decide⟩

/-- C10: a successfully constructed Frame always carries its
RectangleSet already sorted in reading order (find_rects sorts on
construction), so the Expander's sortedness precondition holds with no
further call by the caller. -/
theorem frame_init_items_sorted (img : Img) (raw : List Entry) (f : Frame)
    (h : frame_init img raw = some f) :
    List.Sorted readingOrder f.items := by
  rw [frame_init] at h
  split at h
  · cases h
    exact List.sorted_insertionSort readingOrder raw
  · cases h

/-- Witness for C10: constructing a Frame from a valid RGB image shape
and out-of-order raw detections yields a sorted item list. -/
theorem frame_init_items_sorted_witness :
    List.Sorted readingOrder
      ({ height := 100, width := 50, items := Fex.items } : Frame).items :=
  frame_init_items_sorted imgRGB rawUnsorted
    { height := 100, width := 50, items := Fex.items } (by decide)

end Scr
